import Mathlib

/-!
Verification of the extraction-and-graph-assembly pipeline of
`GraphGenerator.js`: the file classifier (`parseFile`), the import path
resolver (`resolveImportPath`), and the two-pass graph assembler (`main`).

External collaborators (the babel parser/traversal, the `fs` module and the
`path` module) are modelled at their boundary: a parsed file is represented
by the pre-order sequence of syntax nodes that `traverse` presents to the
visitors (each node carried with exactly the shallow structure the visitors
inspect), the filesystem by an existence predicate `String → Bool`, and the
`path` primitives by function parameters.  JS exceptions are modelled with
`Except`: a `readFileSync`/`parser.parse` failure makes `parseFile` return
`Except.error`, which propagates out of `main`'s loop exactly as the thrown
exception does in the source (there is no try/catch around the loop).
-/

namespace GraphGen

/-- The JS regex test `/^[A-Z]/.test(s)`: the first character of `s` is an
ASCII uppercase letter (fails on the empty string). -/
def startsUpper (s : String) : Bool :=
  match s.data with
  | [] => false
  | c :: _ => decide ('A' ≤ c) && decide (c ≤ 'Z')

/-- The JS string primitive `s.startsWith(pre)`, modelled on the character
sequences of the two strings. -/
def jsStartsWith (s pre : String) : Bool :=
  pre.data.isPrefixOf s.data

/-- An import specifier of an `ImportDeclaration`: either a named
`ImportSpecifier` (carrying `imported.name`) or any other specifier kind
(default import, namespace import). -/
inductive ImpSpec where
  | importSpecifier (imported : String)
  | otherSpecifier
  deriving Repr, DecidableEq

/-- An element of an `ArrayPattern`: an `Identifier` (with its name) or any
other pattern form.  A hole in the pattern is `none` at the list level. -/
inductive PatElem where
  | elemIdent (name : String)
  | elemOther
  deriving Repr, DecidableEq

/-- The left-hand side of a `VariableDeclarator`: an `Identifier` (whose
`.name` the visitor reads), an `ArrayPattern` (whose `.elements` the visitor
reads; `none` entries are holes), or any other pattern (`.name` undefined). -/
inductive LVal where
  | ident (name : String)
  | arrayPattern (elements : List (Option PatElem))
  | otherPat
  deriving Repr, DecidableEq

/-- The initializer of a `VariableDeclarator`, carrying the shallow structure
the visitor inspects: its `.type` tag, and for a `CallExpression` the callee's
`.name` (which is `undefined`, i.e. `none`, when the callee is not a plain
identifier).  A (non-arrow) `FunctionExpression` initializer is its own
constructor so that claims about it can be stated. -/
inductive InitExpr where
  | arrowFunctionExpression
  | functionExpression (id : Option String)
  | callExpression (calleeName : Option String)
  | otherInit
  deriving Repr, DecidableEq

/-- One syntax node as presented to the visitors during `traverse`, in
pre-order.  Only the four node kinds with registered visitors carry data;
every other node is `otherNode` (visited but unmatched).  For an
`ImportDeclaration`, `resolvedRel` is the value of
`path.relative(projectRoot, resolveImportPath(filePath, source))` when
resolution succeeds, `none` when `resolveImportPath` returns `null` — the
filesystem lookup is performed by the external resolver at that boundary. -/
inductive VisitedNode where
  | importDeclaration (source : String) (specifiers : List ImpSpec)
      (resolvedRel : Option String)
  | functionDeclaration (id : Option String)
  | variableDeclarator (id : LVal) (init : Option InitExpr)
  | callExpression (calleeName : Option String)
  | otherNode
  deriving Repr, DecidableEq

/-- The per-file metadata record built by `parseFile` (lines 28–41 of the
source).  `nodeType` is the constant `"file"` field. -/
structure Metadata where
  id : String
  linesOfCode : Nat
  components : List String
  usesState : Bool
  usesEffect : Bool
  usesHooks : List String
  usesContext : Bool
  declaresRoutes : Bool
  stateVariables : List String
  imports : List String
  fileType : String
  nodeType : String
  deriving Repr, DecidableEq

/-- The freshly initialized metadata object of `parseFile` (source lines
28–41); `linesOfCode` and `fileType` are computed from the raw text and the
file path by external string/path operations and enter as parameters. -/
def initMetadata (id : String) (linesOfCode : Nat) (fileType : String) :
    Metadata :=
  { id := id
    linesOfCode := linesOfCode
    components := []
    usesState := false
    usesEffect := false
    usesHooks := []
    usesContext := false
    declaresRoutes := false
    stateVariables := []
    imports := []
    fileType := fileType
    nodeType := "file" }

/-- `isReactComponent` (source lines 11–17): the node's `.type` is
`FunctionDeclaration` or `FunctionExpression`, its `.id` is present (truthy),
and the id's name matches `/^[A-Z]/`. -/
def isReactComponent (nodeType : String) (id : Option String) : Bool :=
  (nodeType == "FunctionDeclaration" || nodeType == "FunctionExpression") &&
  (match id with
   | some n => startsUpper n
   | none => false)

/-- The `.name` a visitor reads off a left-hand-side pattern (`undefined`
unless the pattern is an `Identifier`); the truthiness test `id.name &&`
additionally rejects the empty string. -/
def lvalName : LVal → Option String
  | .ident n => some n
  | _ => none

/-- The `ImportDeclaration` visitor body (source lines 44–65). -/
def visitImport (m : Metadata) (source : String) (specifiers : List ImpSpec)
    (resolvedRel : Option String) : Metadata :=
  let m := match resolvedRel with
    | some importRelative => { m with imports := m.imports ++ [importRelative] }
    | none => m
  if source == "react-router-dom" &&
      specifiers.any (fun s =>
        match s with
        | .importSpecifier imported =>
            imported == "Route" || imported == "Routes"
        | .otherSpecifier => false) then
    { m with declaresRoutes := true }
  else m

/-- The `FunctionDeclaration` visitor body (source lines 66–70). -/
def visitFunctionDecl (m : Metadata) (id : Option String) : Metadata :=
  if isReactComponent "FunctionDeclaration" id then
    { m with components := m.components ++ [id.getD ""] }
  else m

/-- First block of the `VariableDeclarator` visitor (source lines 72–79):
the uppercase-arrow-function component rule. -/
def vdComponentBranch (m : Metadata) (id : LVal) (init : Option InitExpr) :
    Metadata :=
  if (match init with
      | some .arrowFunctionExpression => true
      | _ => false) &&
     (match lvalName id with
      | some n => !(n == "") && startsUpper n
      | none => false) then
    { m with components := m.components ++ [(lvalName id).getD ""] }
  else m

/-- Second block of the `VariableDeclarator` visitor (source lines 81–98):
the `useState` destructuring rule (`init` a call whose callee name is
`useState`, `id` an `ArrayPattern` with `elements.length > 0` whose first
element is truthy and an `Identifier`). -/
def vdUseStateBranch (m : Metadata) (id : LVal) (init : Option InitExpr) :
    Metadata :=
  if (match init with
      | some (.callExpression calleeName) => calleeName == some "useState"
      | _ => false) &&
     (match id with
      | .arrayPattern elements =>
          decide (elements.length > 0) &&
          (match elements.head? with
           | some (some (.elemIdent _)) => true
           | _ => false)
      | _ => false) then
    match id with
    | .arrayPattern (some (.elemIdent stateVarName) :: _) =>
        let m := { m with stateVariables := m.stateVariables ++ [stateVarName] }
        let m :=
          if !(m.usesHooks.contains "useState") then
            { m with usesHooks := m.usesHooks ++ ["useState"] }
          else m
        { m with usesState := true }
    | _ => m
  else m

/-- The `VariableDeclarator` visitor body (source lines 71–99): the two
blocks run in sequence over the same metadata object. -/
def visitVariableDeclarator (m : Metadata) (id : LVal)
    (init : Option InitExpr) : Metadata :=
  vdUseStateBranch (vdComponentBranch m id init) id init

/-- The `callee === 'useState'` block of the `CallExpression` visitor
(source lines 102–105): flag set and an unconditional push. -/
def callStateBranch (m : Metadata) (calleeName : Option String) : Metadata :=
  if calleeName == some "useState" then
    { m with usesState := true, usesHooks := m.usesHooks ++ ["useState"] }
  else m

/-- The `callee === 'useEffect'` block (source lines 106–109): flag set and
an unconditional push. -/
def callEffectBranch (m : Metadata) (calleeName : Option String) : Metadata :=
  if calleeName == some "useEffect" then
    { m with usesEffect := true, usesHooks := m.usesHooks ++ ["useEffect"] }
  else m

/-- The `callee === 'useContext'` block (source lines 110–115): flag set and
a deduplicated push. -/
def callContextBranch (m : Metadata) (calleeName : Option String) : Metadata :=
  if calleeName == some "useContext" then
    let m := { m with usesContext := true }
    if !(m.usesHooks.contains "useContext") then
      { m with usesHooks := m.usesHooks ++ ["useContext"] }
    else m
  else m

/-- The generic hook block (source lines 116–118): any callee name starting
with `use`, pushed with deduplication; the guard `callee &&` fails on an
`undefined` callee name. -/
def callGenericBranch (m : Metadata) (calleeName : Option String) : Metadata :=
  match calleeName with
  | some callee =>
      if jsStartsWith callee "use" && !(m.usesHooks.contains callee) then
        { m with usesHooks := m.usesHooks ++ [callee] }
      else m
  | none => m

/-- The `CallExpression` visitor body (source lines 100–119): the four
blocks run in sequence over the same metadata object; `calleeName` is
`path.node.callee.name`, `none` when the callee is not a plain identifier. -/
def visitCall (m : Metadata) (calleeName : Option String) : Metadata :=
  callGenericBranch
    (callContextBranch (callEffectBranch (callStateBranch m calleeName)
      calleeName) calleeName) calleeName

/-- Dispatch of one visited node to the matching visitor (the visitor table
of `traverse`, source lines 43–120). -/
def visitNode (m : Metadata) : VisitedNode → Metadata
  | .importDeclaration source specifiers resolvedRel =>
      visitImport m source specifiers resolvedRel
  | .functionDeclaration id => visitFunctionDecl m id
  | .variableDeclarator id init => visitVariableDeclarator m id init
  | .callExpression calleeName => visitCall m calleeName
  | .otherNode => m

/-- The whole traversal: fold the visitors over the pre-order node sequence
starting from the fresh metadata. -/
def classifyNodes (id : String) (linesOfCode : Nat) (fileType : String)
    (nodes : List VisitedNode) : Metadata :=
  nodes.foldl visitNode (initMetadata id linesOfCode fileType)

/-- One discovered file as `main` sees it: its canonical relative id, the
outcome of `fs.readFileSync` + `parser.parse` + `traverse` (an exception
message, or the pre-order node sequence), and the externally computed
`linesOfCode` and `fileType`. -/
structure FileInput where
  id : String
  parse : Except String (List VisitedNode)
  linesOfCode : Nat
  fileType : String

/-- `parseFile` (source lines 19–123): a read or parse failure is the thrown
exception (`Except.error`); otherwise the metadata built by the traversal. -/
def parseFile (input : FileInput) : Except String Metadata :=
  match input.parse with
  | .error e => .error e
  | .ok nodes =>
      .ok (classifyNodes input.id input.linesOfCode input.fileType nodes)

/-- The external `path` primitives used by `resolveImportPath`, passed at the
boundary: `path.dirname`, binary `path.resolve`, and `path.join`. -/
structure PathOps where
  dirname : String → String
  resolve : String → String → String
  join : String → String → String

/-- `resolveImportPath` (source lines 125–146): pick the base directory by
`importPath.startsWith('.')`, build the eight candidate paths in fixed order,
and return the first for which `fs.existsSync` (the predicate `exist`)
holds; `none` models the `null` return. -/
def resolveImportPath (ops : PathOps) (exist : String → Bool)
    (projectRoot fromFile importPath : String) : Option String :=
  let baseDir :=
    if jsStartsWith importPath "." then ops.dirname fromFile else projectRoot
  let fullPath := ops.resolve baseDir importPath
  let possibilities :=
    [fullPath ++ ".js", fullPath ++ ".jsx", fullPath ++ ".ts",
     fullPath ++ ".tsx",
     ops.join fullPath "index.js", ops.join fullPath "index.jsx",
     ops.join fullPath "index.ts", ops.join fullPath "index.tsx"]
  possibilities.find? exist

/-- A node of the output graph: a file node (the metadata record itself is
pushed into `graph.nodes`) or a synthetic state node
`{ id, label, parent, nodeType: 'state' }` (source lines 166–171). -/
inductive GNode where
  | file (m : Metadata)
  | state (id label parent : String)
  deriving Repr, DecidableEq

/-- The `.id` field of a graph node (file nodes carry their metadata id). -/
def GNode.nodeId : GNode → String
  | .file m => m.id
  | .state id _ _ => id

/-- An edge `{ source, target, type }` of the output graph. -/
structure GEdge where
  source : String
  target : String
  type : String
  deriving Repr, DecidableEq

/-- The output graph `{ nodes, edges }`. -/
structure DepGraph where
  nodes : List GNode
  edges : List GEdge
  deriving Repr, DecidableEq

/-- The state-node identity string `` `${metadata.id}::state::${stateVar}` ``
(source line 165). -/
def stateNodeId (ownerId stateVar : String) : String :=
  ownerId ++ "::state::" ++ stateVar

/-- Pass 1 of `main` (source lines 158–179) restricted to graph building:
push each record as a node, then for each of its `stateVariables` push a
state node and a `state` edge.  (The `metadata.stateVariables &&
metadata.stateVariables.length > 0` guard is the trivial guard of the loop.) -/
def pass1 (records : List Metadata) : List GNode × List GEdge :=
  records.foldl
    (fun acc m =>
      let acc := (acc.1 ++ [GNode.file m], acc.2)
      m.stateVariables.foldl
        (fun acc2 stateVar =>
          (acc2.1 ++ [GNode.state (stateNodeId m.id stateVar) stateVar m.id],
           acc2.2 ++ [⟨m.id, stateNodeId m.id stateVar, "state"⟩]))
        acc)
    ([], [])

/-- The `fileMap[target]` truthiness test of pass 2: `fileMap` maps each
parsed record's id to the (always truthy) record (source lines 156–160). -/
def fileMapHas (records : List Metadata) (target : String) : Bool :=
  records.any (fun m => m.id == target)

/-- Pass 2 of `main` (source lines 181–193): walk `graph.nodes`; only file
nodes have an `imports` array (`Array.isArray` fails on state nodes, which
have no such field); for each import target present in `fileMap`, push an
`imports` edge. -/
def pass2Edges (records : List Metadata) (nodes : List GNode)
    (edges : List GEdge) : List GEdge :=
  nodes.foldl
    (fun es n =>
      match n with
      | .file m =>
          m.imports.foldl
            (fun es2 target =>
              if fileMapHas records target then
                es2 ++ [⟨m.id, target, "imports"⟩]
              else es2)
            es
      | .state _ _ _ => es)
    edges

/-- The graph assembly of `main` over the completed record list: pass 1
builds the node set and the `state` edges, pass 2 appends the `imports`
edges. -/
def assemble (records : List Metadata) : DepGraph :=
  let p := pass1 records
  { nodes := p.1, edges := pass2Edges records p.1 p.2 }

/-- `main` (source lines 148–201) up to its observable output: parse every
discovered file in order — a thrown read/parse error propagates out of the
loop uncaught, aborting the run with no graph — then assemble the graph.
(Serialization and visualization are external output steps.) -/
def mainRun (files : List FileInput) : Except String DepGraph :=
  match files.mapM parseFile with
  | .error e => .error e
  | .ok records => .ok (assemble records)

/-! ### Characterizing definitions used to state the claims -/

/-- The state nodes pass 1 pushes for one record, in order. -/
def stateNodesOf (m : Metadata) : List GNode :=
  m.stateVariables.map (fun sv => GNode.state (stateNodeId m.id sv) sv m.id)

/-- The `state` edges pass 1 pushes for one record, in order. -/
def stateEdgesOf (m : Metadata) : List GEdge :=
  m.stateVariables.map (fun sv => ⟨m.id, stateNodeId m.id sv, "state"⟩)

/-- The `imports` edges pass 2 pushes for one file node, in order. -/
def importsEdgesOf (records : List Metadata) (m : Metadata) : List GEdge :=
  (m.imports.filter (fileMapHas records)).map (fun t => ⟨m.id, t, "imports"⟩)

/-- The `imports` edges one graph node contributes in pass 2 (state nodes
have no `imports` array and contribute nothing). -/
def nodeImportsEdges (records : List Metadata) : GNode → List GEdge
  | .file m => importsEdgesOf records m
  | .state _ _ _ => []

/-- The candidate list of the resolver, as the spec describes it: base
directory from the relative-path-marker test, then the eight suffixed paths
in fixed priority order. -/
def specCandidates (ops : PathOps) (projectRoot fromFile importPath : String) :
    List String :=
  let base :=
    if jsStartsWith importPath "." || jsStartsWith importPath ".." then
      ops.dirname fromFile
    else projectRoot
  let full := ops.resolve base importPath
  [full ++ ".js", full ++ ".jsx", full ++ ".ts", full ++ ".tsx",
   ops.join full "index.js", ops.join full "index.jsx",
   ops.join full "index.ts", ops.join full "index.tsx"]

/-- Modelled from the spec's words for claim C2 ("a two-(or-more)-element
positional-destructuring pattern whose right-hand side is a call to the
state-hook; the first destructured identifier is recorded"): the state
variable name a declarator contributes under that reading, `none` for every
other node. -/
def specStateBinding : VisitedNode → Option String
  | .variableDeclarator (.arrayPattern elements) (some (.callExpression c)) =>
      if c == some "useState" && decide (2 ≤ elements.length) then
        match elements.head? with
        | some (some (.elemIdent n)) => some n
        | _ => none
      else none
  | _ => none

/-- The state variable name a declarator actually contributes in the code:
the pattern needs only one or more elements, the first an identifier, and the
initializer a call whose callee name is `useState`. -/
def amendedStateBinding : VisitedNode → Option String
  | .variableDeclarator (.arrayPattern (some (.elemIdent n) :: _))
      (some (.callExpression c)) =>
      if c == some "useState" then some n else none
  | _ => none

/-- Modelled from the spec's words for claim C4 ("a named function
declaration, or a variable binding initialized to a function expression,
whose identifier starts with an uppercase letter"): the component name a
node contributes under that reading (a plain `FunctionExpression`
initializer qualifies just as an arrow function does). -/
def specComponent : VisitedNode → Option String
  | .functionDeclaration (some n) => if startsUpper n then some n else none
  | .variableDeclarator (.ident n) (some .arrowFunctionExpression) =>
      if startsUpper n then some n else none
  | .variableDeclarator (.ident n) (some (.functionExpression _)) =>
      if startsUpper n then some n else none
  | _ => none

/-- The component name a node actually contributes in the code: a named
function declaration, or a variable binding initialized to an arrow function
expression, whose identifier starts with an uppercase letter. -/
def amendedComponent : VisitedNode → Option String
  | .functionDeclaration (some n) => if startsUpper n then some n else none
  | .variableDeclarator (.ident n) (some .arrowFunctionExpression) =>
      if startsUpper n then some n else none
  | _ => none

/-! ### Concrete inputs used by witnesses and counterexamples -/

/-- A file whose read/parse step throws (Scenario F's failing file). -/
def badFile : FileInput :=
  ⟨"bad.ts", .error "SyntaxError: unexpected token", 3, "ts"⟩

/-- A file that parses fine (empty body). -/
def goodFile : FileInput := ⟨"good.ts", .ok [], 1, "ts"⟩

/-- The declarator of `const [count, setCount] = useState(0)` (Scenario D),
followed in pre-order by its initializer call `useState(0)`. -/
def scenarioDNodes : List VisitedNode :=
  [.variableDeclarator
      (.arrayPattern [some (.elemIdent "count"), some (.elemIdent "setCount")])
      (some (.callExpression (some "useState"))),
   .callExpression (some "useState")]

/-- The declarator of a single-element destructuring `const [count] =
useState(0)` (the initializer call omitted so only the declarator rule
fires). -/
def singleElemNode : VisitedNode :=
  .variableDeclarator (.arrayPattern [some (.elemIdent "count")])
    (some (.callExpression (some "useState")))

/-- The declarator of `const Header = function () {}`: a variable binding
initialized to a plain (non-arrow) function expression. -/
def funcExprNode : VisitedNode :=
  .variableDeclarator (.ident "Header") (some (.functionExpression none))

/-- Pre-order nodes of a file declaring the same state variable name twice,
e.g. `const [x, sx] = useState(0); { const [x, sx] = useState(1); }`
(initializer calls elided — they do not touch `stateVariables`). -/
def dupStateNodes : List VisitedNode :=
  [.variableDeclarator
      (.arrayPattern [some (.elemIdent "x"), some (.elemIdent "sx")])
      (some (.callExpression (some "useState"))),
   .variableDeclarator
      (.arrayPattern [some (.elemIdent "x"), some (.elemIdent "sx")])
      (some (.callExpression (some "useState")))]

/-- A record for `b.ts` with no imports and no state. -/
def mB : Metadata := initMetadata "b.ts" 1 "ts"

/-- A record for `a.ts` importing the analyzed `b.ts` and the external
`react`, with one state binding. -/
def mA : Metadata :=
  { initMetadata "a.ts" 2 "ts" with
      imports := ["b.ts", "react"], stateVariables := ["count"] }

/-- A two-record input to the assembler. -/
def records1 : List Metadata := [mA, mB]

/-- Trivial concrete path operations for resolver witnesses. -/
def flatPathOps : PathOps :=
  ⟨fun _ => "dir", fun a b => a ++ "/" ++ b, fun a b => a ++ "/" ++ b⟩

/-! ### Theorems -/

/-- Folding a push of one mapped element into each component of a pair
appends the two mapped lists. -/
theorem foldl_push_pair {α β γ : Type} (f : α → β) (g : α → γ)
    (l : List α) (acc : List β × List γ) :
    l.foldl (fun a x => (a.1 ++ [f x], a.2 ++ [g x])) acc
      = (acc.1 ++ l.map f, acc.2 ++ l.map g) := by
  induction l generalizing acc with
  | nil => simp
  | cons x t ih => simp [ih]

/-- The fold of pass 1, over any accumulator: it appends one file node and
the record's state nodes, and the record's state edges. -/
theorem pass1_foldl (records : List Metadata) (acc : List GNode × List GEdge) :
    records.foldl
      (fun acc m =>
        let acc := (acc.1 ++ [GNode.file m], acc.2)
        m.stateVariables.foldl
          (fun acc2 stateVar =>
            (acc2.1 ++ [GNode.state (stateNodeId m.id stateVar) stateVar m.id],
             acc2.2 ++ [⟨m.id, stateNodeId m.id stateVar, "state"⟩]))
          acc)
      acc
      = (acc.1 ++ records.flatMap (fun m => GNode.file m :: stateNodesOf m),
         acc.2 ++ records.flatMap stateEdgesOf) := by
  induction records generalizing acc with
  | nil => simp
  | cons m t ih =>
    simp only [List.foldl_cons, List.flatMap_cons]
    rw [foldl_push_pair (fun sv => GNode.state (stateNodeId m.id sv) sv m.id)
      (fun sv => (⟨m.id, stateNodeId m.id sv, "state"⟩ : GEdge))]
    rw [ih]
    simp [stateNodesOf, stateEdgesOf]

/-- Pass 1 produces, per record in order, the file node followed by its
state nodes, and the corresponding state edges. -/
theorem pass1_eq (records : List Metadata) :
    pass1 records
      = (records.flatMap (fun m => GNode.file m :: stateNodesOf m),
         records.flatMap stateEdgesOf) := by
  unfold pass1
  rw [pass1_foldl]
  simp

/-- Folding a conditional push appends the filtered, mapped list. -/
theorem foldl_filter_push {α β : Type} (p : α → Bool) (e : α → β)
    (l : List α) (es : List β) :
    l.foldl (fun es2 t => if p t then es2 ++ [e t] else es2) es
      = es ++ (l.filter p).map e := by
  induction l generalizing es with
  | nil => simp
  | cons x t ih => cases hx : p x <;> simp [ih, hx]

/-- Pass 2 appends, per graph node in order, the `imports` edges that node
contributes. -/
theorem pass2Edges_eq (records : List Metadata) (nodes : List GNode)
    (edges : List GEdge) :
    pass2Edges records nodes edges
      = edges ++ nodes.flatMap (nodeImportsEdges records) := by
  induction nodes generalizing edges with
  | nil => simp [pass2Edges]
  | cons n t ih =>
    cases n with
    | file m =>
        have h1 : pass2Edges records (GNode.file m :: t) edges
            = pass2Edges records t
                (m.imports.foldl
                  (fun es2 target =>
                    if fileMapHas records target then
                      es2 ++ [⟨m.id, target, "imports"⟩]
                    else es2) edges) := rfl
        rw [h1, foldl_filter_push (fileMapHas records)
          (fun target => (⟨m.id, target, "imports"⟩ : GEdge)), ih]
        simp [nodeImportsEdges, importsEdgesOf]
    | state i lb pa =>
        have h1 : pass2Edges records (GNode.state i lb pa :: t) edges
            = pass2Edges records t edges := rfl
        rw [h1, ih]
        simp [nodeImportsEdges]

/-- The node list of the assembled graph. -/
theorem assemble_nodes (records : List Metadata) :
    (assemble records).nodes
      = records.flatMap (fun m => GNode.file m :: stateNodesOf m) := by
  simp [assemble, pass1_eq]

/-- The edge list of the assembled graph: all state edges (pass 1), then all
`imports` edges (pass 2). -/
theorem assemble_edges (records : List Metadata) :
    (assemble records).edges
      = records.flatMap stateEdgesOf
          ++ records.flatMap (importsEdgesOf records) := by
  have h : ∀ m : Metadata,
      (GNode.file m :: stateNodesOf m).flatMap (nodeImportsEdges records)
        = importsEdgesOf records m := by
    intro m
    simp [stateNodesOf, nodeImportsEdges, List.flatMap_map]
  simp only [assemble, pass1_eq, pass2Edges_eq]
  rw [List.flatMap_assoc]
  simp only [h]

/-- If every block filters to nothing, the flattened filter is empty. -/
theorem filter_flatMap_nil {α β : Type} (l : List α) (f : α → List β)
    (p : β → Bool) (h : ∀ x ∈ l, (f x).filter p = []) :
    (l.flatMap f).filter p = [] := by
  induction l with
  | nil => simp
  | cons a t ih =>
    simp only [List.flatMap_cons, List.filter_append]
    rw [h a (List.mem_cons_self a t),
      ih (fun x hx => h x (List.mem_cons_of_mem a hx))]
    rfl

/-- When exactly one element of `l` (identified by its key) can contribute
matching entries, filtering the flattened list is filtering that element's
block. -/
theorem filter_flatMap_unique {α β : Type} (l : List α) (F : α)
    (key : α → String) (f : α → List β) (p : β → Bool)
    (hmem : F ∈ l) (hnd : (l.map key).Nodup)
    (hempty : ∀ x ∈ l, key x ≠ key F → (f x).filter p = []) :
    (l.flatMap f).filter p = (f F).filter p := by
  induction l with
  | nil => cases hmem
  | cons a t ih =>
    simp only [List.map_cons, List.nodup_cons] at hnd
    simp only [List.flatMap_cons, List.filter_append]
    by_cases hak : key a = key F
    · have haF : a = F := by
        rcases List.mem_cons.mp hmem with h | h
        · exact h.symm
        · exact absurd (hak ▸ List.mem_map_of_mem key h) hnd.1
      subst haF
      have ht : (t.flatMap f).filter p = [] := by
        refine filter_flatMap_nil t f p (fun x hx => hempty x
          (List.mem_cons_of_mem a hx) (fun he => hnd.1 ?_))
        exact (hak ▸ he) ▸ List.mem_map_of_mem key hx
      rw [ht]
      simp
    · have hFt : F ∈ t := by
        rcases List.mem_cons.mp hmem with h | h
        · exact absurd (h ▸ rfl) hak
        · exact h
      rw [hempty a (List.mem_cons_self a t) hak,
        ih hFt hnd.2 (fun x hx => hempty x (List.mem_cons_of_mem a hx))]
      rfl

/-- A record's file node is a node of the assembled graph. -/
theorem file_node_mem_assemble {records : List Metadata} {m : Metadata}
    (h : m ∈ records) : GNode.file m ∈ (assemble records).nodes := by
  rw [assemble_nodes]
  exact List.mem_flatMap.mpr ⟨m, h, List.mem_cons_self _ _⟩

/-- Each state node of a record is a node of the assembled graph. -/
theorem state_node_mem_assemble {records : List Metadata} {m : Metadata}
    {sv : String} (hm : m ∈ records) (hs : sv ∈ m.stateVariables) :
    GNode.state (stateNodeId m.id sv) sv m.id ∈ (assemble records).nodes := by
  rw [assemble_nodes]
  refine List.mem_flatMap.mpr ⟨m, hm, List.mem_cons_of_mem _ ?_⟩
  exact List.mem_map_of_mem _ hs

/-- Every edge of the assembled graph points at an existing node: a state
edge at the state node pushed with it, an `imports` edge at the file node of
the record `fileMap` resolved it to. -/
theorem assemble_targets_exist (records : List Metadata) :
    ∀ e ∈ (assemble records).edges,
      ∃ n ∈ (assemble records).nodes, n.nodeId = e.target := by
  intro e he
  rw [assemble_edges] at he
  rcases List.mem_append.mp he with h | h
  · rcases List.mem_flatMap.mp h with ⟨m, hm, hme⟩
    rcases List.mem_map.mp hme with ⟨sv, hsv, rfl⟩
    exact ⟨GNode.state (stateNodeId m.id sv) sv m.id,
      state_node_mem_assemble hm hsv, rfl⟩
  · rcases List.mem_flatMap.mp h with ⟨m, hm, hme⟩
    rcases List.mem_map.mp hme with ⟨t, ht, rfl⟩
    have hfm : fileMapHas records t = true := (List.mem_filter.mp ht).2
    rcases List.any_eq_true.mp hfm with ⟨m', hm', hid⟩
    exact ⟨GNode.file m', file_node_mem_assemble hm', eq_of_beq hid⟩

/-- The `ImportDeclaration` visitor only touches `imports` and
`declaresRoutes`. -/
theorem visitImport_fields (m : Metadata) (s : String) (sp : List ImpSpec)
    (r : Option String) :
    (visitImport m s sp r).stateVariables = m.stateVariables
    ∧ (visitImport m s sp r).components = m.components
    ∧ (visitImport m s sp r).usesHooks = m.usesHooks
    ∧ (visitImport m s sp r).usesState = m.usesState
    ∧ (visitImport m s sp r).usesEffect = m.usesEffect
    ∧ (visitImport m s sp r).usesContext = m.usesContext := by
  unfold visitImport
  cases r <;> dsimp <;> split <;> simp

/-- The `FunctionDeclaration` visitor appends exactly the component name the
recognition rule yields for that node. -/
theorem visitFunctionDecl_eq (m : Metadata) (id : Option String) :
    visitFunctionDecl m id
      = { m with components := m.components
            ++ (amendedComponent (.functionDeclaration id)).toList } := by
  cases id with
  | none => simp [visitFunctionDecl, isReactComponent, amendedComponent]
  | some n =>
    by_cases hu : startsUpper n <;>
      simp [visitFunctionDecl, isReactComponent, amendedComponent, hu]

/-- The component block of the `VariableDeclarator` visitor appends exactly
the component name the recognition rule yields for that node (the
truthiness test `id.name &&` is subsumed: `startsUpper` rejects the empty
string). -/
theorem vdComponentBranch_eq (m : Metadata) (id : LVal)
    (init : Option InitExpr) :
    vdComponentBranch m id init
      = { m with components := m.components
            ++ (amendedComponent (.variableDeclarator id init)).toList } := by
  rcases init with _ | i
  · cases id <;> simp [vdComponentBranch, amendedComponent, lvalName]
  · cases i with
    | arrowFunctionExpression =>
      cases id with
      | ident n =>
        by_cases hn : n = ""
        · subst hn
          have he : startsUpper "" = false := rfl
          simp [vdComponentBranch, amendedComponent, lvalName, he]
        · by_cases hu : startsUpper n <;>
            simp [vdComponentBranch, amendedComponent, lvalName, hn, hu]
      | arrayPattern els =>
        simp [vdComponentBranch, amendedComponent, lvalName]
      | otherPat =>
        simp [vdComponentBranch, amendedComponent, lvalName]
    | functionExpression oid =>
      cases id <;> simp [vdComponentBranch, amendedComponent, lvalName]
    | callExpression cn =>
      cases id <;> simp [vdComponentBranch, amendedComponent, lvalName]
    | otherInit =>
      cases id <;> simp [vdComponentBranch, amendedComponent, lvalName]

/-- When the declarator is not a recognized state binding, the `useState`
block does nothing. -/
theorem vdUseStateBranch_none (m : Metadata) (id : LVal)
    (init : Option InitExpr)
    (h : amendedStateBinding (.variableDeclarator id init) = none) :
    vdUseStateBranch m id init = m := by
  rcases init with _ | i
  · cases id <;> simp [vdUseStateBranch]
  · cases i with
    | callExpression cn =>
      cases id with
      | ident n => simp [vdUseStateBranch]
      | otherPat => simp [vdUseStateBranch]
      | arrayPattern els =>
        match els with
        | [] => simp [vdUseStateBranch]
        | none :: rest => simp [vdUseStateBranch]
        | some (.elemOther) :: rest => simp [vdUseStateBranch]
        | some (.elemIdent n) :: rest =>
          simp only [amendedStateBinding] at h
          have hc : (cn == some "useState") = false := by
            by_contra hb
            rw [Bool.not_eq_false] at hb
            rw [if_pos hb] at h
            cases h
          simp [vdUseStateBranch, hc]
    | arrowFunctionExpression => cases id <;> simp [vdUseStateBranch]
    | functionExpression oid => cases id <;> simp [vdUseStateBranch]
    | otherInit => cases id <;> simp [vdUseStateBranch]

/-- When the declarator is a recognized state binding, the `useState` block
appends the first destructured identifier to `stateVariables`, sets
`usesState`, ensures `useState` is in `usesHooks`, and leaves the other
flags, their hook entries, and `components` unchanged. -/
theorem vdUseStateBranch_of_some (m : Metadata) (id : LVal)
    (init : Option InitExpr) (n : String)
    (h : amendedStateBinding (.variableDeclarator id init) = some n) :
    (vdUseStateBranch m id init).stateVariables = m.stateVariables ++ [n]
    ∧ (vdUseStateBranch m id init).usesState = true
    ∧ (vdUseStateBranch m id init).usesHooks.contains "useState" = true
    ∧ (vdUseStateBranch m id init).usesEffect = m.usesEffect
    ∧ (vdUseStateBranch m id init).usesContext = m.usesContext
    ∧ (vdUseStateBranch m id init).usesHooks.contains "useEffect"
        = m.usesHooks.contains "useEffect"
    ∧ (vdUseStateBranch m id init).usesHooks.contains "useContext"
        = m.usesHooks.contains "useContext"
    ∧ (vdUseStateBranch m id init).components = m.components := by
  match id, init with
  | .ident _, _ => cases h
  | .otherPat, _ => cases h
  | .arrayPattern [], _ => cases h
  | .arrayPattern (none :: rest), _ => cases h
  | .arrayPattern (some (.elemOther) :: rest), _ => cases h
  | .arrayPattern (some (.elemIdent n') :: rest), none => cases h
  | .arrayPattern (some (.elemIdent n') :: rest), some .arrowFunctionExpression => cases h
  | .arrayPattern (some (.elemIdent n') :: rest), some (.functionExpression oid) => cases h
  | .arrayPattern (some (.elemIdent n') :: rest), some .otherInit => cases h
  | .arrayPattern (some (.elemIdent n') :: rest), some (.callExpression cn) =>
    simp only [amendedStateBinding] at h
    have hc : (cn == some "useState") = true := by
      by_contra hb
      rw [Bool.not_eq_true] at hb
      rw [if_neg (by simp [hb])] at h
      cases h
    have hn : n' = n := by
      rw [if_pos hc] at h
      cases h
      rfl
    subst hn
    by_cases hel : "useState" ∈ m.usesHooks <;>
      simp [vdUseStateBranch, hc, hel]

/-- Beq on two `some`s is beq of the contents. -/
theorem option_some_beq (a b : String) : (some a == some b) = (a == b) := rfl

/-- The `CallExpression` visitor touches neither `stateVariables` nor
`components`. -/
theorem visitCall_stateVariables_components (m : Metadata)
    (c : Option String) :
    (visitCall m c).stateVariables = m.stateVariables
    ∧ (visitCall m c).components = m.components := by
  cases c <;>
    simp only [visitCall, callStateBranch, callEffectBranch,
      callContextBranch, callGenericBranch] <;>
    (repeat' split) <;> simp

/-- The `CallExpression` visitor preserves the agreement of each quick
flag with membership of its hook name in `usesHooks`. -/
theorem visitCall_flags (m : Metadata) (c : Option String)
    (h1 : m.usesState = m.usesHooks.contains "useState")
    (h2 : m.usesEffect = m.usesHooks.contains "useEffect")
    (h3 : m.usesContext = m.usesHooks.contains "useContext") :
    (visitCall m c).usesState = (visitCall m c).usesHooks.contains "useState"
    ∧ (visitCall m c).usesEffect
        = (visitCall m c).usesHooks.contains "useEffect"
    ∧ (visitCall m c).usesContext
        = (visitCall m c).usesHooks.contains "useContext" := by
  cases c with
  | none =>
    have hid : visitCall m none = m := by
      simp [visitCall, callStateBranch, callEffectBranch, callContextBranch,
        callGenericBranch]
    rw [hid]
    exact ⟨h1, h2, h3⟩
  | some s =>
    by_cases hs1 : s = "useState"
    · subst hs1
      have hj : jsStartsWith "useState" "use" = true := rfl
      simp [visitCall, callStateBranch, callEffectBranch, callContextBranch,
        callGenericBranch, option_some_beq, hj, h1, h2, h3]
    · by_cases hs2 : s = "useEffect"
      · subst hs2
        have hj : jsStartsWith "useEffect" "use" = true := rfl
        simp [visitCall, callStateBranch, callEffectBranch,
          callContextBranch, callGenericBranch, option_some_beq, hj, h1, h2,
          h3]
      · by_cases hs3 : s = "useContext"
        · subst hs3
          have hj : jsStartsWith "useContext" "use" = true := rfl
          by_cases hel : "useContext" ∈ m.usesHooks <;>
            simp [visitCall, callStateBranch, callEffectBranch,
              callContextBranch, callGenericBranch, option_some_beq, hj, hel,
              h1, h2, h3]
        · have e1 : (s == "useState") = false := beq_eq_false_iff_ne.mpr hs1
          have e2 : (s == "useEffect") = false := beq_eq_false_iff_ne.mpr hs2
          have e3 : (s == "useContext") = false :=
            beq_eq_false_iff_ne.mpr hs3
          have n1 : "useState" ≠ s := Ne.symm hs1
          have n2 : "useEffect" ≠ s := Ne.symm hs2
          have n3 : "useContext" ≠ s := Ne.symm hs3
          simp only [visitCall, callStateBranch, callEffectBranch,
            callContextBranch, callGenericBranch, option_some_beq, e1, e2,
            e3, Bool.false_eq_true, if_false]
          split <;> simp [List.mem_append, n1, n2, n3, h1, h2, h3]

/-- The `CallExpression` visitor never unsets `usesState` and never removes
`useState` from `usesHooks`. -/
theorem visitCall_useState_mono (m : Metadata) (c : Option String)
    (hS : m.usesState = true)
    (hc : m.usesHooks.contains "useState" = true) :
    (visitCall m c).usesState = true
    ∧ (visitCall m c).usesHooks.contains "useState" = true := by
  cases c <;>
    simp only [visitCall, callStateBranch, callEffectBranch,
      callContextBranch, callGenericBranch] <;>
    (repeat' split) <;> simp_all [List.mem_append]

/-- One visitor step appends exactly the recognized state binding to
`stateVariables`. -/
theorem visitNode_stateVariables (m : Metadata) (v : VisitedNode) :
    (visitNode m v).stateVariables
      = m.stateVariables ++ (amendedStateBinding v).toList := by
  cases v with
  | importDeclaration s sp r =>
    rw [show visitNode m (.importDeclaration s sp r) = visitImport m s sp r
      from rfl, (visitImport_fields m s sp r).1]
    simp [amendedStateBinding]
  | functionDeclaration fid =>
    rw [show visitNode m (.functionDeclaration fid) = visitFunctionDecl m fid
      from rfl, visitFunctionDecl_eq]
    simp [amendedStateBinding]
  | variableDeclarator vid vinit =>
    rw [show visitNode m (.variableDeclarator vid vinit)
      = vdUseStateBranch (vdComponentBranch m vid vinit) vid vinit from rfl]
    cases hbind : amendedStateBinding (.variableDeclarator vid vinit) with
    | none =>
      rw [vdUseStateBranch_none _ _ _ hbind, vdComponentBranch_eq]
      simp
    | some n =>
      rw [(vdUseStateBranch_of_some _ vid vinit n hbind).1,
        vdComponentBranch_eq]
      simp
  | callExpression c =>
    rw [show visitNode m (.callExpression c) = visitCall m c from rfl,
      (visitCall_stateVariables_components m c).1]
    simp [amendedStateBinding]
  | otherNode => simp [visitNode, amendedStateBinding]

/-- One visitor step appends exactly the recognized component name to
`components`. -/
theorem visitNode_components (m : Metadata) (v : VisitedNode) :
    (visitNode m v).components
      = m.components ++ (amendedComponent v).toList := by
  cases v with
  | importDeclaration s sp r =>
    rw [show visitNode m (.importDeclaration s sp r) = visitImport m s sp r
      from rfl, (visitImport_fields m s sp r).2.1]
    simp [amendedComponent]
  | functionDeclaration fid =>
    rw [show visitNode m (.functionDeclaration fid) = visitFunctionDecl m fid
      from rfl, visitFunctionDecl_eq]
  | variableDeclarator vid vinit =>
    rw [show visitNode m (.variableDeclarator vid vinit)
      = vdUseStateBranch (vdComponentBranch m vid vinit) vid vinit from rfl]
    cases hbind : amendedStateBinding (.variableDeclarator vid vinit) with
    | none =>
      rw [vdUseStateBranch_none _ _ _ hbind, vdComponentBranch_eq]
    | some n =>
      obtain ⟨-, -, -, -, -, -, -, hcomps⟩ :=
        vdUseStateBranch_of_some (vdComponentBranch m vid vinit) vid vinit n
          hbind
      rw [hcomps, vdComponentBranch_eq]
  | callExpression c =>
    rw [show visitNode m (.callExpression c) = visitCall m c from rfl,
      (visitCall_stateVariables_components m c).2]
    simp [amendedComponent]
  | otherNode => simp [visitNode, amendedComponent]

/-- One visitor step preserves the agreement of the quick flags with
`usesHooks` membership. -/
theorem visitNode_flags (m : Metadata) (v : VisitedNode)
    (h1 : m.usesState = m.usesHooks.contains "useState")
    (h2 : m.usesEffect = m.usesHooks.contains "useEffect")
    (h3 : m.usesContext = m.usesHooks.contains "useContext") :
    (visitNode m v).usesState = (visitNode m v).usesHooks.contains "useState"
    ∧ (visitNode m v).usesEffect
        = (visitNode m v).usesHooks.contains "useEffect"
    ∧ (visitNode m v).usesContext
        = (visitNode m v).usesHooks.contains "useContext" := by
  cases v with
  | importDeclaration s sp r =>
    obtain ⟨-, -, hh, hs, he, hctx⟩ := visitImport_fields m s sp r
    rw [show visitNode m (.importDeclaration s sp r) = visitImport m s sp r
      from rfl]
    rw [hh, hs, he, hctx]
    exact ⟨h1, h2, h3⟩
  | functionDeclaration fid =>
    rw [show visitNode m (.functionDeclaration fid) = visitFunctionDecl m fid
      from rfl, visitFunctionDecl_eq]
    exact ⟨h1, h2, h3⟩
  | variableDeclarator vid vinit =>
    rw [show visitNode m (.variableDeclarator vid vinit)
      = vdUseStateBranch (vdComponentBranch m vid vinit) vid vinit from rfl,
      vdComponentBranch_eq]
    cases hbind : amendedStateBinding (.variableDeclarator vid vinit) with
    | none =>
      rw [vdUseStateBranch_none _ _ _ hbind]
      exact ⟨h1, h2, h3⟩
    | some n =>
      obtain ⟨-, hs, hcon, he, hctx, hce, hcc, -⟩ :=
        vdUseStateBranch_of_some
          { m with components := m.components
              ++ (amendedComponent (.variableDeclarator vid vinit)).toList }
          vid vinit n hbind
      rw [hs, hcon, he, hctx, hce, hcc]
      exact ⟨rfl, h2, h3⟩
  | callExpression c =>
    rw [show visitNode m (.callExpression c) = visitCall m c from rfl]
    exact visitCall_flags m c h1 h2 h3
  | otherNode => exact ⟨h1, h2, h3⟩

/-- One visitor step never unsets `usesState` and never removes `useState`
from `usesHooks`. -/
theorem visitNode_useState_mono (m : Metadata) (v : VisitedNode)
    (hS : m.usesState = true)
    (hc : m.usesHooks.contains "useState" = true) :
    (visitNode m v).usesState = true
    ∧ (visitNode m v).usesHooks.contains "useState" = true := by
  cases v with
  | importDeclaration s sp r =>
    obtain ⟨-, -, hh, hs, -, -⟩ := visitImport_fields m s sp r
    rw [show visitNode m (.importDeclaration s sp r) = visitImport m s sp r
      from rfl, hh, hs]
    exact ⟨hS, hc⟩
  | functionDeclaration fid =>
    rw [show visitNode m (.functionDeclaration fid) = visitFunctionDecl m fid
      from rfl, visitFunctionDecl_eq]
    exact ⟨hS, hc⟩
  | variableDeclarator vid vinit =>
    rw [show visitNode m (.variableDeclarator vid vinit)
      = vdUseStateBranch (vdComponentBranch m vid vinit) vid vinit from rfl,
      vdComponentBranch_eq]
    cases hbind : amendedStateBinding (.variableDeclarator vid vinit) with
    | none =>
      rw [vdUseStateBranch_none _ _ _ hbind]
      exact ⟨hS, hc⟩
    | some n =>
      obtain ⟨-, hs, hcon, -, -, -, -, -⟩ :=
        vdUseStateBranch_of_some
          { m with components := m.components
              ++ (amendedComponent (.variableDeclarator vid vinit)).toList }
          vid vinit n hbind
      exact ⟨hs, hcon⟩
  | callExpression c =>
    rw [show visitNode m (.callExpression c) = visitCall m c from rfl]
    exact visitCall_useState_mono m c hS hc
  | otherNode => exact ⟨hS, hc⟩

/-- Visiting a recognized state binding sets `usesState` and puts `useState`
into `usesHooks`, whatever the incoming metadata. -/
theorem visitNode_binding_sets_flags (m : Metadata) (v : VisitedNode)
    (n : String) (h : amendedStateBinding v = some n) :
    (visitNode m v).usesState = true
    ∧ (visitNode m v).usesHooks.contains "useState" = true := by
  cases v with
  | importDeclaration s sp r => cases h
  | functionDeclaration fid => cases h
  | callExpression c => cases h
  | otherNode => cases h
  | variableDeclarator vid vinit =>
    rw [show visitNode m (.variableDeclarator vid vinit)
      = vdUseStateBranch (vdComponentBranch m vid vinit) vid vinit from rfl]
    obtain ⟨-, hs, hcon, -, -, -, -, -⟩ :=
      vdUseStateBranch_of_some (vdComponentBranch m vid vinit) vid vinit n h
    exact ⟨hs, hcon⟩

/-- The traversal fold appends the recognized state bindings in order. -/
theorem foldl_stateVariables (nodes : List VisitedNode) (m : Metadata) :
    (nodes.foldl visitNode m).stateVariables
      = m.stateVariables ++ nodes.filterMap amendedStateBinding := by
  induction nodes generalizing m with
  | nil => simp
  | cons v t ih =>
    rw [List.foldl_cons, ih, visitNode_stateVariables]
    cases h : amendedStateBinding v <;> simp [List.filterMap_cons, h]

/-- The traversal fold appends the recognized component names in order. -/
theorem foldl_components (nodes : List VisitedNode) (m : Metadata) :
    (nodes.foldl visitNode m).components
      = m.components ++ nodes.filterMap amendedComponent := by
  induction nodes generalizing m with
  | nil => simp
  | cons v t ih =>
    rw [List.foldl_cons, ih, visitNode_components]
    cases h : amendedComponent v <;> simp [List.filterMap_cons, h]

/-- The traversal fold preserves the flag/hook-membership agreement. -/
theorem foldl_flags (nodes : List VisitedNode) (m : Metadata)
    (h1 : m.usesState = m.usesHooks.contains "useState")
    (h2 : m.usesEffect = m.usesHooks.contains "useEffect")
    (h3 : m.usesContext = m.usesHooks.contains "useContext") :
    ((nodes.foldl visitNode m).usesState
        = (nodes.foldl visitNode m).usesHooks.contains "useState")
    ∧ ((nodes.foldl visitNode m).usesEffect
        = (nodes.foldl visitNode m).usesHooks.contains "useEffect")
    ∧ ((nodes.foldl visitNode m).usesContext
        = (nodes.foldl visitNode m).usesHooks.contains "useContext") := by
  induction nodes generalizing m with
  | nil => exact ⟨h1, h2, h3⟩
  | cons v t ih =>
    obtain ⟨g1, g2, g3⟩ := visitNode_flags m v h1 h2 h3
    exact ih (visitNode m v) g1 g2 g3

/-- The traversal fold never unsets `usesState` nor drops `useState` from
`usesHooks`. -/
theorem foldl_useState_mono (nodes : List VisitedNode) (m : Metadata)
    (hS : m.usesState = true)
    (hc : m.usesHooks.contains "useState" = true) :
    (nodes.foldl visitNode m).usesState = true
    ∧ (nodes.foldl visitNode m).usesHooks.contains "useState" = true := by
  induction nodes generalizing m with
  | nil => exact ⟨hS, hc⟩
  | cons v t ih =>
    obtain ⟨g1, g2⟩ := visitNode_useState_mono m v hS hc
    exact ih (visitNode m v) g1 g2

/-- C1: a read or parse failure of one file is not isolated — the thrown
error propagates out of `main`'s loop, the run aborts with the error, and no
graph is produced at all, so the remaining files do not appear in any final
graph (the spec requires the offending file to be skipped instead). -/
theorem C1_parse_failure_aborts_run :
    mainRun [badFile, goodFile] = .error "SyntaxError: unexpected token" :=
  rfl

/-- C3: `hookNames` does not suppress duplicates — on Scenario D's own
binding `const [count, setCount] = useState(0)`, the declarator rule and the
`CallExpression` rule each push `useState`, and the `CallExpression` branch
pushes unconditionally, so the name appears twice. -/
theorem C3_useState_duplicated_in_hooks :
    (classifyNodes "x.tsx" 1 "tsx" scenarioDNodes).usesHooks =
      ["useState", "useState"] :=
  rfl

/-- C2 counterexample: a single-element destructuring `const [count] =
useState(0)` is recorded as a state variable although the claim's
"two-or-more-element" condition excludes it. -/
theorem C2_single_element_recorded :
    (classifyNodes "f.ts" 1 "ts" [singleElemNode]).stateVariables = ["count"]
    ∧ [singleElemNode].filterMap specStateBinding = [] :=
  ⟨rfl, rfl⟩

/-- C4 counterexample: `const Header = function () {}` is a variable binding
initialized to a function expression with an uppercase identifier, yet the
classifier records no component for it (only arrow-function initializers
match). -/
theorem C4_function_expression_not_recorded :
    (classifyNodes "f.ts" 1 "ts" [funcExprNode]).components = []
    ∧ specComponent funcExprNode = some "Header" :=
  ⟨rfl, rfl⟩

/-- C6: for every analyzed file F, the assembled graph has exactly one
`imports` edge with source F per import entry that `fileMap` recognizes
(an entry that resolved to an analyzed file), and every `imports` edge's
target passed the `fileMap` test of pass 2 and exists in the node set. -/
theorem C6_imports_edges (records : List Metadata) (F : Metadata)
    (hmem : F ∈ records) (hnd : (records.map Metadata.id).Nodup) :
    (assemble records).edges.countP
        (fun e => e.source == F.id && e.type == "imports")
      = (F.imports.filter (fileMapHas records)).length
    ∧ ∀ e ∈ (assemble records).edges, e.type = "imports" →
        fileMapHas records e.target = true
        ∧ ∃ n ∈ (assemble records).nodes, n.nodeId = e.target := by
  constructor
  · rw [assemble_edges, List.countP_append]
    have hstate : (records.flatMap stateEdgesOf).countP
        (fun e => e.source == F.id && e.type == "imports") = 0 := by
      rw [List.countP_eq_length_filter, filter_flatMap_nil]
      · rfl
      · intro m hm
        rw [stateEdgesOf, List.filter_map]
        have hc : ((fun e => e.source == F.id && e.type == "imports") ∘
            fun sv => (⟨m.id, stateNodeId m.id sv, "state"⟩ : GEdge))
            = fun _ => false := by
          funext sv
          simp
        rw [hc]
        simp
    have himp : (records.flatMap (importsEdgesOf records)).countP
        (fun e => e.source == F.id && e.type == "imports")
        = (F.imports.filter (fileMapHas records)).length := by
      rw [List.countP_eq_length_filter,
        filter_flatMap_unique records F Metadata.id (importsEdgesOf records)
          _ hmem hnd]
      · rw [List.filter_eq_self.mpr, importsEdgesOf, List.length_map]
        intro e he
        rcases List.mem_map.mp he with ⟨t, ht, rfl⟩
        simp
      · intro m hm hne
        rw [importsEdgesOf, List.filter_map]
        have hb : (m.id == F.id) = false := beq_eq_false_iff_ne.mpr hne
        have hc : ((fun e => e.source == F.id && e.type == "imports") ∘
            fun t => (⟨m.id, t, "imports"⟩ : GEdge)) = fun _ => false := by
          funext t
          simp [hb]
        rw [hc]
        simp
    rw [hstate, himp]
    simp
  · intro e he htype
    refine ⟨?_, assemble_targets_exist records e he⟩
    rw [assemble_edges] at he
    rcases List.mem_append.mp he with h | h
    · rcases List.mem_flatMap.mp h with ⟨m, hm, hme⟩
      rcases List.mem_map.mp hme with ⟨sv, hsv, rfl⟩
      simp at htype
    · rcases List.mem_flatMap.mp h with ⟨m, hm, hme⟩
      rcases List.mem_map.mp hme with ⟨t, ht, rfl⟩
      exact (List.mem_filter.mp ht).2

/-- C6 witness: in the two-file input `records1`, file `a.ts` has two import
entries of which exactly one (`b.ts`) is analyzed, so exactly one `imports`
edge with source `a.ts` is present, and all `imports` edges hit nodes. -/
theorem C6_imports_edges_witness :
    (assemble records1).edges.countP
        (fun e => e.source == mA.id && e.type == "imports")
      = (mA.imports.filter (fileMapHas records1)).length
    ∧ ∀ e ∈ (assemble records1).edges, e.type = "imports" →
        fileMapHas records1 e.target = true
        ∧ ∃ n ∈ (assemble records1).nodes, n.nodeId = e.target :=
  C6_imports_edges records1 mA (by decide) (by decide)

/-- C7: for every analyzed file F, the assembled graph has exactly one
`state` edge with source F per entry of F's `stateVariables`, and its state
nodes with parent F are exactly one per entry, in order, each with identity
`F.id ++ "::state::" ++ name`. -/
theorem C7_state_edges_and_nodes (records : List Metadata) (F : Metadata)
    (hmem : F ∈ records) (hnd : (records.map Metadata.id).Nodup) :
    (assemble records).edges.countP
        (fun e => e.source == F.id && e.type == "state")
      = F.stateVariables.length
    ∧ (assemble records).nodes.filter
        (fun n => match n with
          | .state _ _ parent => parent == F.id
          | .file _ => false)
      = F.stateVariables.map
          (fun sv => GNode.state (stateNodeId F.id sv) sv F.id) := by
  constructor
  · rw [assemble_edges, List.countP_append]
    have himp : (records.flatMap (importsEdgesOf records)).countP
        (fun e => e.source == F.id && e.type == "state") = 0 := by
      rw [List.countP_eq_length_filter, filter_flatMap_nil]
      · rfl
      · intro m hm
        rw [importsEdgesOf, List.filter_map]
        have hc : ((fun e => e.source == F.id && e.type == "state") ∘
            fun t => (⟨m.id, t, "imports"⟩ : GEdge)) = fun _ => false := by
          funext t
          simp
        rw [hc]
        simp
    have hstate : (records.flatMap stateEdgesOf).countP
        (fun e => e.source == F.id && e.type == "state")
        = F.stateVariables.length := by
      rw [List.countP_eq_length_filter,
        filter_flatMap_unique records F Metadata.id stateEdgesOf _ hmem hnd]
      · rw [List.filter_eq_self.mpr, stateEdgesOf, List.length_map]
        intro e he
        rcases List.mem_map.mp he with ⟨sv, hsv, rfl⟩
        simp
      · intro m hm hne
        rw [stateEdgesOf, List.filter_map]
        have hb : (m.id == F.id) = false := beq_eq_false_iff_ne.mpr hne
        have hc : ((fun e => e.source == F.id && e.type == "state") ∘
            fun sv => (⟨m.id, stateNodeId m.id sv, "state"⟩ : GEdge))
            = fun _ => false := by
          funext sv
          simp [hb]
        rw [hc]
        simp
    rw [hstate, himp]
    simp
  · rw [assemble_nodes,
      filter_flatMap_unique records F Metadata.id
        (fun m => GNode.file m :: stateNodesOf m) _ hmem hnd]
    · rw [List.filter_cons_of_neg (by simp), stateNodesOf, List.filter_map]
      have hc : ((fun n => match n with
          | GNode.state _ _ parent => parent == F.id
          | GNode.file _ => false) ∘
          fun sv => GNode.state (stateNodeId F.id sv) sv F.id)
          = fun _ => true := by
        funext sv
        simp
      rw [hc, List.filter_true]
    · intro m hm hne
      have hb : (m.id == F.id) = false := beq_eq_false_iff_ne.mpr hne
      rw [List.filter_cons_of_neg (by simp), stateNodesOf, List.filter_map]
      have hc : ((fun n => match n with
          | GNode.state _ _ parent => parent == F.id
          | GNode.file _ => false) ∘
          fun sv => GNode.state (stateNodeId m.id sv) sv m.id)
          = fun _ => false := by
        funext sv
        simp [hb]
      rw [hc]
      simp

/-- C7 witness: in `records1`, file `a.ts` has one state binding `count`,
so the graph has one `state` edge from `a.ts` and exactly the state node
`a.ts::state::count` with parent `a.ts`. -/
theorem C7_state_edges_and_nodes_witness :
    (assemble records1).edges.countP
        (fun e => e.source == mA.id && e.type == "state")
      = mA.stateVariables.length
    ∧ (assemble records1).nodes.filter
        (fun n => match n with
          | .state _ _ parent => parent == mA.id
          | .file _ => false)
      = mA.stateVariables.map
          (fun sv => GNode.state (stateNodeId mA.id sv) sv mA.id) :=
  C7_state_edges_and_nodes records1 mA (by decide) (by decide)

/-- C2 (amended): an entry is appended to `stateVariables` exactly when the
binding's left-hand side is a positional-destructuring pattern with one or
more elements whose first element is an identifier and the right-hand side
is a call to `useState`; the recorded name is the first destructured
identifier, and for such a binding the name is in `stateVariables`,
`usesState` is true and `useState` is in `usesHooks`. -/
theorem C2_state_binding_rule (fid : String) (loc : Nat) (ft : String)
    (nodes : List VisitedNode) :
    (classifyNodes fid loc ft nodes).stateVariables
        = nodes.filterMap amendedStateBinding
    ∧ ∀ v ∈ nodes, ∀ n, amendedStateBinding v = some n →
        n ∈ (classifyNodes fid loc ft nodes).stateVariables
        ∧ (classifyNodes fid loc ft nodes).usesState = true
        ∧ (classifyNodes fid loc ft nodes).usesHooks.contains "useState"
            = true := by
  have hchar : (classifyNodes fid loc ft nodes).stateVariables
      = nodes.filterMap amendedStateBinding := by
    unfold classifyNodes
    rw [foldl_stateVariables]
    rfl
  refine ⟨hchar, ?_⟩
  intro v hv n hn
  refine ⟨?_, ?_⟩
  · rw [hchar]
    exact List.mem_filterMap.mpr ⟨v, hv, hn⟩
  · obtain ⟨s, t, rfl⟩ := List.append_of_mem hv
    unfold classifyNodes
    rw [List.foldl_append, List.foldl_cons]
    obtain ⟨g1, g2⟩ := visitNode_binding_sets_flags
      ((s.foldl visitNode (initMetadata fid loc ft))) v n hn
    exact foldl_useState_mono t _ g1 g2

/-- C2 witness: on Scenario D's `const [count, setCount] = useState(0)` the
characterization yields `stateVariables = [count]` with the flag and the
hook entry set. -/
theorem C2_state_binding_rule_witness :
    "count" ∈ (classifyNodes "x.tsx" 1 "tsx" scenarioDNodes).stateVariables
    ∧ (classifyNodes "x.tsx" 1 "tsx" scenarioDNodes).usesState = true
    ∧ (classifyNodes "x.tsx" 1 "tsx" scenarioDNodes).usesHooks.contains
        "useState" = true :=
  (C2_state_binding_rule "x.tsx" 1 "tsx" scenarioDNodes).2
    (.variableDeclarator
      (.arrayPattern [some (.elemIdent "count"), some (.elemIdent "setCount")])
      (some (.callExpression (some "useState"))))
    (by decide) "count" rfl

/-- C4 (amended): an identifier appears in `components` exactly when it
names an uppercase function declaration or a variable binding initialized
to an arrow function expression with an uppercase identifier; in
particular `function Header(){}` is recorded and `function helper(){}` is
not. -/
theorem C4_component_rule (fid : String) (loc : Nat) (ft : String)
    (nodes : List VisitedNode) :
    (classifyNodes fid loc ft nodes).components
        = nodes.filterMap amendedComponent
    ∧ (classifyNodes "x.tsx" 1 "tsx"
        [.functionDeclaration (some "Header"),
         .functionDeclaration (some "helper")]).components = ["Header"] := by
  constructor
  · unfold classifyNodes
    rw [foldl_components]
    rfl
  · rfl

/-- C10: after classification each quick flag agrees with membership of its
hook name in `usesHooks`: `usesState` iff `useState` is recorded,
`usesEffect` iff `useEffect` is recorded, `usesContext` iff `useContext`
is recorded. -/
theorem C10_flags_match_hooks (fid : String) (loc : Nat) (ft : String)
    (nodes : List VisitedNode) :
    ((classifyNodes fid loc ft nodes).usesState
        = (classifyNodes fid loc ft nodes).usesHooks.contains "useState")
    ∧ ((classifyNodes fid loc ft nodes).usesEffect
        = (classifyNodes fid loc ft nodes).usesHooks.contains "useEffect")
    ∧ ((classifyNodes fid loc ft nodes).usesContext
        = (classifyNodes fid loc ft nodes).usesHooks.contains "useContext")
    := by
  unfold classifyNodes
  exact foldl_flags nodes (initMetadata fid loc ft) rfl rfl rfl

/-- C8 counterexample: a file binding the same state variable name twice
yields two state nodes with the identical identity `a.ts::state::x`, so node
identities in the assembled graph are not unique. -/
theorem C8_duplicate_state_ids :
    mainRun [⟨"a.ts", .ok dupStateNodes, 2, "ts"⟩] =
      .ok (assemble [classifyNodes "a.ts" 2 "ts" dupStateNodes])
    ∧ ¬ (((assemble [classifyNodes "a.ts" 2 "ts" dupStateNodes]).nodes.map
          GNode.nodeId).Nodup) :=
  ⟨rfl, by decide⟩

/-- A string that starts with `..` also starts with `.`. -/
theorem jsStartsWith_dotdot {s : String} (h : jsStartsWith s ".." = true) :
    jsStartsWith s "." = true := by
  unfold jsStartsWith at h ⊢
  rw [ List.isPrefixOf_iff_prefix] at h ⊢
  exact List.IsPrefix.trans ⟨['.'], rfl⟩ h

/-- The resolver's relative-path test `importPath.startsWith('.')` agrees
with the spec's phrasing "begins with `.` or `..`". -/
theorem jsStartsWith_dot_or_dotdot (s : String) :
    (jsStartsWith s "." || jsStartsWith s "..") = jsStartsWith s "." := by
  cases h1 : jsStartsWith s "." with
  | true => rfl
  | false =>
    cases h2 : jsStartsWith s ".." with
    | false => rfl
    | true => rw [jsStartsWith_dotdot h2] at h1; cases h1

/-- C5: resolution picks the base directory by the relative-path marker
(`.` or `..` prefix means the importing file's directory, anything else the
project root), tries the eight candidates in the fixed priority order, and
returns the first one that exists; when no candidate exists it returns
`none` (a value, not a failure). -/
theorem C5_resolution (ops : PathOps) (exist : String → Bool)
    (projectRoot fromFile importPath : String) :
    resolveImportPath ops exist projectRoot fromFile importPath
        = (specCandidates ops projectRoot fromFile importPath).find? exist
    ∧ ((∀ c ∈ specCandidates ops projectRoot fromFile importPath,
          exist c = false) →
        resolveImportPath ops exist projectRoot fromFile importPath = none)
    ∧ (∀ p, resolveImportPath ops exist projectRoot fromFile importPath
          = some p →
        exist p = true
        ∧ ∃ i : Fin (specCandidates ops projectRoot fromFile
              importPath).length,
            (specCandidates ops projectRoot fromFile importPath).get i = p
            ∧ ∀ j : Fin (specCandidates ops projectRoot fromFile
                  importPath).length,
                j.val < i.val →
                exist ((specCandidates ops projectRoot fromFile
                  importPath).get j) = false) := by
  have hfind : resolveImportPath ops exist projectRoot fromFile importPath
      = (specCandidates ops projectRoot fromFile importPath).find? exist := by
    unfold resolveImportPath specCandidates
    rw [jsStartsWith_dot_or_dotdot]
  refine ⟨hfind, ?_, ?_⟩
  · intro h
    rw [hfind, List.find?_eq_none]
    intro c hc hpc
    rw [h c hc] at hpc
    cases hpc
  · intro p hp
    rw [hfind] at hp
    rcases List.find?_eq_some_iff_getElem.mp hp with ⟨hpb, i, hi, heq, hlt⟩
    refine ⟨hpb, ⟨i, hi⟩, ?_, ?_⟩
    · rw [List.get_eq_getElem]
      exact heq
    · intro j hj
      rw [List.get_eq_getElem]
      have := hlt j.val hj
      simpa using this

/-- C5 witness: with trivial path operations and a filesystem where nothing
exists, resolution of `./b` from `root/a.ts` is `none`. -/
theorem C5_resolution_witness :
    resolveImportPath flatPathOps (fun _ => false) "root" "root/a.ts" "./b"
      = none :=
  (C5_resolution flatPathOps (fun _ => false) "root" "root/a.ts" "./b").2.1
    (fun _ _ => rfl)

/-- C9: resolution is a pure function of the filesystem state, the path
operations, the importing file and the specifier — two resolutions of the
same pair against the same state give the same result. -/
theorem C9_resolution_deterministic (ops : PathOps) (exist : String → Bool)
    (projectRoot fromFile importPath : String) (r1 r2 : Option String)
    (h1 : r1 = resolveImportPath ops exist projectRoot fromFile importPath)
    (h2 : r2 = resolveImportPath ops exist projectRoot fromFile importPath) :
    r1 = r2 :=
  h1.trans h2.symm

/-- C9 witness: two resolutions of `./b` from `root/a.ts` against the same
(empty) filesystem coincide. -/
theorem C9_resolution_deterministic_witness :
    resolveImportPath flatPathOps (fun _ => false) "root" "root/a.ts" "./b"
      = resolveImportPath flatPathOps (fun _ => false) "root" "root/a.ts"
          "./b" :=
  C9_resolution_deterministic flatPathOps (fun _ => false) "root" "root/a.ts"
    "./b" _ _ rfl rfl

/-- C8 (amended): every `imports` and `state` edge of an assembled graph
targets an existing node, unconditionally; node identities are unique
provided the analyzed file ids are distinct, no file repeats a state
variable name, no file id coincides with a state-node key, and equal
composite state keys only arise from equal (owner id, name) pairs. -/
theorem C8_targets_and_unique_ids (records : List Metadata)
    (hnd : (records.map Metadata.id).Nodup)
    (hsv : ∀ m ∈ records, m.stateVariables.Nodup)
    (hfs : ∀ m ∈ records, ∀ m' ∈ records, ∀ sv ∈ m'.stateVariables,
        m.id ≠ stateNodeId m'.id sv)
    (hkey : ∀ m ∈ records, ∀ m' ∈ records, ∀ sv ∈ m.stateVariables,
        ∀ sv' ∈ m'.stateVariables,
        stateNodeId m.id sv = stateNodeId m'.id sv' →
          m.id = m'.id ∧ sv = sv') :
    (∀ e ∈ (assemble records).edges,
        ∃ n ∈ (assemble records).nodes, n.nodeId = e.target)
    ∧ ((assemble records).nodes.map GNode.nodeId).Nodup := by
  refine ⟨assemble_targets_exist records, ?_⟩
  have hblock : ∀ m : Metadata,
      (GNode.file m :: stateNodesOf m).map GNode.nodeId
        = m.id :: m.stateVariables.map (stateNodeId m.id) := by
    intro m
    simp [stateNodesOf, GNode.nodeId, List.map_map]
  rw [assemble_nodes, List.map_flatMap]
  simp only [hblock]
  rw [List.nodup_flatMap]
  constructor
  · intro m hm
    rw [List.nodup_cons]
    constructor
    · intro hin
      rcases List.mem_map.mp hin with ⟨sv, hsvm, heq⟩
      exact hfs m hm m hm sv hsvm heq.symm
    · exact (hsv m hm).map_on
        (fun sv hs sv' hs' he => (hkey m hm m hm sv hs sv' hs' he).2)
  · have hpw : records.Pairwise (fun a b => a.id ≠ b.id) :=
      List.pairwise_map.mp hnd
    refine hpw.imp_of_mem ?_
    intro a b ha hb hab x hxa hxb
    rcases List.mem_cons.mp hxa with rfl | hxa'
    · rcases List.mem_cons.mp hxb with heq | hxb'
      · exact hab heq
      · rcases List.mem_map.mp hxb' with ⟨sv', hsv', heq⟩
        exact hfs a ha b hb sv' hsv' heq.symm
    · rcases List.mem_map.mp hxa' with ⟨sv, hsvm, rfl⟩
      rcases List.mem_cons.mp hxb with heq | hxb'
      · exact hfs b hb a ha sv hsvm heq.symm
      · rcases List.mem_map.mp hxb' with ⟨sv', hsv', heq⟩
        exact hab (hkey a ha b hb sv hsvm sv' hsv' heq.symm).1

/-- C8 witness: on the two-file input `records1` the hypotheses hold
concretely, so all edge targets exist and the node identities
`a.ts`, `a.ts::state::count`, `b.ts` are unique. -/
theorem C8_targets_and_unique_ids_witness :
    (∀ e ∈ (assemble records1).edges,
        ∃ n ∈ (assemble records1).nodes, n.nodeId = e.target)
    ∧ ((assemble records1).nodes.map GNode.nodeId).Nodup :=
  C8_targets_and_unique_ids records1 (by decide) (by decide) (by decide)
    (by decide)

end GraphGen
